import Mathlib

/-!
Verification of the transform-and-merge pipeline of `coletaIPEAv2.py`.

The pandas dataframes of the source are shallowly embedded: a dataframe is a
column-name list together with a list of positional rows, a cell is a string,
a rational number (idealising the source's floating-point values), or the
missing marker `Value.null` (pandas `NaN`). Each pandas operation used by
`silver_transform` / `gold_finish` is translated into a total Lean function on
this representation; Python exceptions of the silver tier are modelled with
`Except`, and the in-place mutations performed by `gold_finish` on its caller's
list are modelled by an explicit function returning the final state of that
list.
-/

/-- A dataframe cell: a string, a number (floats idealised as rationals), or
the missing marker (pandas `NaN`/`None`). -/
inductive Value where
  | str  : String → Value
  | num  : ℚ → Value
  | null : Value
deriving DecidableEq

/-- A dataframe row, positional, parallel to the column list. -/
abbrev Row := List Value

/-- A pandas dataframe: ordered column names and positional rows. -/
structure DF where
  cols : List String
  rows : List Row
deriving DecidableEq

/-- Cell of row `r` at column `c`: the entry at the position of the first
occurrence of `c` in the column list, `null` when the column is absent. -/
def DF.cell (df : DF) (r : Row) (c : String) : Value :=
  r.getD (df.cols.indexOf c) Value.null

/-- A row has no missing field. -/
def rowNonnull (r : Row) : Bool :=
  r.all (fun v => decide (v ≠ Value.null))

/-- Embeds `df.dropna()` (default `how=any`, `axis=0`): drop every row that
contains a missing field in any column. -/
def dropnaDF (df : DF) : DF :=
  ⟨df.cols, df.rows.filter rowNonnull⟩

/-- Embeds `df.reindex(columns=newCols)`: keep the rows, project each onto the
new column list, filling columns absent from `df` with `null`. -/
def reindexDF (df : DF) (newCols : List String) : DF :=
  ⟨newCols, df.rows.map (fun r => newCols.map (fun c => df.cell r c))⟩

/-- Embeds Python `str(...)` applied to a cell by `astype(str)`.  String
formatting of numbers is idealised by `toString` on `ℚ`; pandas renders `NaN`
as the string `nan`. -/
def valueToStr : Value → Value
  | Value.str s => Value.str s
  | Value.num q => Value.str (toString q)
  | Value.null  => Value.str "nan"

/-- Embeds `df[c] = df[c].astype(str)`: in-place string coercion of one
column. -/
def astypeStrCol (df : DF) (c : String) : DF :=
  ⟨df.cols, df.rows.map (fun r =>
    r.set (df.cols.indexOf c) (valueToStr (r.getD (df.cols.indexOf c) Value.null)))⟩

/-- Embeds `df[c] = <series computed row-wise by f>`: overwrite column `c`
when present, append it otherwise. -/
def assignCol (df : DF) (c : String) (f : Row → Value) : DF :=
  if c ∈ df.cols then
    ⟨df.cols, df.rows.map (fun r => r.set (df.cols.indexOf c) (f r))⟩
  else
    ⟨df.cols ++ [c], df.rows.map (fun r => r ++ [f r])⟩

/-- Embeds `left.merge(right, how=left, on=CodMunIBGE)`: result columns are
the left columns followed by the non-key right columns; every left row is kept
once per matching right row, and with `null` fill when no right row matches.
Pandas never matches a `NaN` key, hence the non-null requirement. -/
def mergeDF (left right : DF) : DF :=
  let rcols := right.cols.filter (fun c => decide (c ≠ "CodMunIBGE"))
  ⟨left.cols ++ rcols,
   left.rows.flatMap (fun r =>
     let ms := right.rows.filter (fun s =>
       decide (left.cell r "CodMunIBGE" ≠ Value.null ∧
               right.cell s "CodMunIBGE" = left.cell r "CodMunIBGE"))
     if ms.isEmpty then [r ++ rcols.map (fun _ => Value.null)]
     else ms.map (fun s => r ++ rcols.map (fun c => right.cell s c)))⟩

/-- Comparison used by `sort_values(by=CodMunIBGE)`; missing keys sort last
(`na_position=last`), and the cross-type cases (which real pandas would
reject) are fixed arbitrarily. -/
def valLe (a b : Value) : Bool :=
  match a, b with
  | Value.str s, Value.str t => decide (s ≤ t)
  | Value.num p, Value.num q => decide (p ≤ q)
  | Value.num _, Value.str _ => true
  | Value.str _, Value.num _ => false
  | _, Value.null => true
  | Value.null, _ => false

/-- Insertion step of the row sort. -/
def insertRow (le : Row → Row → Bool) (r : Row) : List Row → List Row
  | [] => [r]
  | s :: l => if le r s then r :: s :: l else s :: insertRow le r l

/-- Sorts rows (the claims only use that this is a permutation, so the
instability of the pandas quicksort is immaterial). -/
def sortRows (le : Row → Row → Bool) : List Row → List Row
  | [] => []
  | r :: l => insertRow le r (sortRows le l)

/-- Embeds `df.sort_values(by=CodMunIBGE)`. -/
def sortByKey (df : DF) : DF :=
  ⟨df.cols, sortRows (fun a b => valLe (df.cell a "CodMunIBGE") (df.cell b "CodMunIBGE")) df.rows⟩

/-- Embeds `astype(float)` on one cell; numbers are already floats, a missing
value stays missing (`NaN`). String-to-float parsing is not modelled: in the
pipeline the operand column always holds numbers or `NaN`. -/
def asFloat : Value → Value
  | Value.num q => Value.num q
  | _ => Value.null

/-- Row-wise division of two cells as pandas performs it in
`Receitas / PIB.astype(float)`: defined on numbers, `null` (`NaN`) as soon as
an operand is missing. -/
def divVal : Value → Value → Value
  | Value.num a, Value.num b => Value.num (a / b)
  | _, _ => Value.null

/-- The fixed canonical column order of `gold_finish` (`column_order`). -/
def columnOrder : List String :=
  ["CodMunIBGE", "Município", "Habitantes 2010", "IDHM 2010", "PIB 2010 (R$)",
   "Receitas Correntes 2010 (R$)", "Carga Tributária Municipal 2010"]

/-- Lines 120-125 of `gold_finish`: take the first table as accumulator and
left-join every further table, whose key column is first coerced to string in
place. -/
def goldMerge (dfs : List DF) : DF :=
  match dfs with
  | [] => ⟨[], []⟩
  | d0 :: rest =>
      rest.foldl (fun acc d => mergeDF acc (astypeStrCol d "CodMunIBGE")) d0

/-- Lines 136-142 of `gold_finish`, applied after the join loop: drop the rows
with missing fields, reindex to the canonical column order, sort by the key.
Note the null-drop runs BEFORE the reindex, exactly as in the source. -/
def goldSorted (dfs : List DF) : DF :=
  sortByKey (reindexDF (dropnaDF (goldMerge dfs)) columnOrder)

/-- Line 144 of `gold_finish`: the merged table with the derived column
overwritten by the row-wise ratio `Receitas Correntes / PIB.astype(float)`. -/
def gold_finish (dfs : List DF) : DF :=
  assignCol (goldSorted dfs) "Carga Tributária Municipal 2010" (fun r =>
    divVal ((goldSorted dfs).cell r "Receitas Correntes 2010 (R$)")
           (asFloat ((goldSorted dfs).cell r "PIB 2010 (R$)")))

/-- Final state of the caller's `silver_dataframes` list after `gold_finish`
returns, read off the source's aliasing: with a single table, `merged_df`
aliases `silver_dataframes[0]`, so `dropna(inplace=True)` (line 137) mutates
that input table; the subsequent `reindex` (line 139) rebinds `merged_df` to a
fresh frame, so the sort and the derived column never touch the input.  With
two or more tables, each table after the first is mutated by the in-place key
coercion `df[CodMunIBGE] = df[CodMunIBGE].astype(str)` (line 122), while
`merge` returns fresh frames, leaving the first table untouched. -/
def goldInputsAfter (dfs : List DF) : List DF :=
  match dfs with
  | [] => []
  | [d] => [dropnaDF d]
  | d :: rest => d :: rest.map (fun t => astypeStrCol t "CodMunIBGE")

/-- A `NormalizedTable` of the spec's data model (§3): a string municipality
key paired with one named indicator column. -/
structure NormalizedTable where
  ind  : String
  rows : List (String × Value)
deriving DecidableEq

/-- Dataframe view of a `NormalizedTable`. -/
def NormalizedTable.toDF (t : NormalizedTable) : DF :=
  ⟨["CodMunIBGE", t.ind], t.rows.map (fun p => [Value.str p.1, p.2])⟩

/-- Key set of a `NormalizedTable`. -/
def NormalizedTable.keys (t : NormalizedTable) : List String :=
  t.rows.map Prod.fst

/-- `gold_finish` on a list of normalized tables. -/
def goldFinishN (ts : List NormalizedTable) : DF :=
  gold_finish (ts.map NormalizedTable.toDF)

/-- Value of column `c` selected by name from the per-table values `s`
aligned with the tables `ts` (the first table whose indicator is `c` wins,
matching how `DF.cell` reads the first occurrence of a column name). -/
def byName (ts : List NormalizedTable) (s : List Value) (c : String) : Value :=
  match ts, s with
  | t :: ts2, v :: s2 => if t.ind = c then v else byName ts2 s2 c
  | _, _ => Value.null

/-- The canonical output row that `gold_finish` produces for municipality `k`
when the tables `ts` contribute the matched values `s`: the six source
columns selected by name, and the derived column recomputed from the
tax-revenue and GDP cells. -/
def outRow (ts : List NormalizedTable) (k : String) (s : List Value) : Row :=
  [Value.str k, byName ts s "Município", byName ts s "Habitantes 2010",
   byName ts s "IDHM 2010", byName ts s "PIB 2010 (R$)",
   byName ts s "Receitas Correntes 2010 (R$)",
   divVal (byName ts s "Receitas Correntes 2010 (R$)")
          (asFloat (byName ts s "PIB 2010 (R$)"))]

/-- Well-formed dataframe: every row has exactly one entry per column (always
true of a real pandas frame). -/
def wfDF (df : DF) : Prop :=
  ∀ r ∈ df.rows, r.length = df.cols.length

instance (df : DF) : Decidable (wfDF df) :=
  inferInstanceAs (Decidable (∀ r ∈ df.rows, r.length = df.cols.length))

/-- The cell holds a number. -/
def isNum : Value → Bool
  | Value.num _ => true
  | _ => false

/-- The cell holds a nonzero number (the guard needed around the derived
division: at a zero divisor the real float division yields `inf` or, at
`0.0/0.0`, `NaN`, which the rational idealisation cannot reproduce). -/
def isNumNZ : Value → Bool
  | Value.num q => decide (q ≠ 0)
  | _ => false

/-- All non-key columns contributed by a list of frames (used to state that no
two sources share an indicator column, so that the pandas merge introduces no
`_x`/`_y` suffixes, which this embedding does not model). -/
def nonkeyCols (dfs : List DF) : List String :=
  dfs.flatMap (fun d => d.cols.filter (fun c => decide (c ≠ "CodMunIBGE")))

/- ### Silver tier -/

/-- Character-list prefix test (helper for the substring test below). -/
def chPre : List Char → List Char → Bool
  | [], _ => true
  | _ :: _, [] => false
  | a :: as, b :: bs => decide (a = b) && chPre as bs

/-- Character-list substring test (helper for the substring test below). -/
def chSub (needle : List Char) : List Char → Bool
  | [] => needle.isEmpty
  | c :: t => chPre needle (c :: t) || chSub needle t

/-- Python's `needle in hay` on strings. -/
def strIn (needle hay : String) : Bool :=
  chSub needle.toList hay.toList

/-- Embeds `df.query(c == v)`: raises (as pandas does) when the queried column
is absent, otherwise keeps the rows whose `c` cell equals `v`. -/
def queryEq (df : DF) (c : String) (v : Value) : Except String DF :=
  if c ∈ df.cols then
    Except.ok ⟨df.cols, df.rows.filter (fun r => decide (df.cell r c = v))⟩
  else
    Except.error ("name not defined: " ++ c)

/-- Embeds `df.drop(columns=cs)`: raises (`KeyError`) when a dropped column is
absent, otherwise removes the columns and the corresponding row entries. -/
def dropColsE (df : DF) (cs : List String) : Except String DF :=
  if cs.all (fun c => decide (c ∈ df.cols)) then
    Except.ok ⟨df.cols.filter (fun c => decide (c ∉ cs)),
               df.rows.map (fun r =>
                 ((df.cols.zip r).filter (fun p => decide (p.1 ∉ cs))).map Prod.snd)⟩
  else
    Except.error "KeyError: drop on absent column"

/-- Embeds `df.rename(columns=m)`: renames the matching column names, silently
ignores the others, never raises. -/
def renameCols (df : DF) (m : List (String × String)) : DF :=
  ⟨df.cols.map (fun c => match m.lookup c with
     | some c2 => c2
     | none => c), df.rows⟩

/-- Round half to even (the rounding of numpy/pandas `.round`), idealised on
exact rationals. -/
def roundHalfEven (q : ℚ) : ℤ :=
  let n := q.floor
  if q - (n : ℚ) < 1/2 then n
  else if (1 : ℚ)/2 < q - (n : ℚ) then n + 1
  else if n % 2 = 0 then n else n + 1

/-- Embeds `.round(3)` on one value. -/
def round3 (q : ℚ) : ℚ :=
  (roundHalfEven (q * 1000) : ℚ) / 1000

/-- Python `int(...)` on a rational: truncation toward zero. -/
def ratTrunc (q : ℚ) : ℤ :=
  q.num / (q.den : ℤ)

/-- The raw GDP value column name of the IPEA series. -/
def pibRawCol : String := "VALUE (R$ (mil), a preços do ano 2010)"

/-- Every cell of column `c` is numeric. -/
def colAllNum (df : DF) (c : String) : Bool :=
  df.rows.all (fun r => match df.cell r c with
    | Value.num _ => true
    | _ => false)

/-- Embeds `astype(int)` best effort on a column (used with `errors=ignore`):
converts when every cell is numeric, otherwise leaves the column unchanged. -/
def astypeIntColBE (df : DF) (c : String) : DF :=
  if colAllNum df c then
    ⟨df.cols, df.rows.map (fun r =>
      r.set (df.cols.indexOf c)
        (match r.getD (df.cols.indexOf c) Value.null with
         | Value.num q => Value.num ((ratTrunc q : ℤ) : ℚ)
         | v => v))⟩
  else df

/-- Inner body of `silver_transform` (lines 69-105): the per-source filter,
drop, rename and cast rules, with every pandas exception surfaced in
`Except.error`.  Dates are modelled by their string representation, so the two
date-comparison branches of the IDHM rule coincide; string-to-float parsing of
`astype(float)` is not modelled (the IPEA value columns are numeric). -/
def silverCore (df : DF) (filename : String) : Except String DF := do
  if strIn "IDHM_2010.csv" filename then
    let f1 ← queryEq df "uname" (Value.str "Municipality")
    let f2 ← queryEq f1 "date" (Value.str "2010-01-01")
    let d ← dropColsE f2 ["code", "uname", "date"]
    return renameCols d [("tcode", "CodMunIBGE"), ("value", "IDHM 2010")]
  else if filename = "Municípios.csv" then
    let f ← queryEq df "LEVEL" (Value.str "Municípios")
    let d ← dropColsE f ["LEVEL", "AREA", "CAPITAL"]
    return renameCols d [("NAME", "Município"), ("ID", "CodMunIBGE")]
  else
    let f ← queryEq df "NIVNOME" (Value.str "Municípios")
    let d ← dropColsE f ["CODE", "RAW DATE", "YEAR", "NIVNOME"]
    if strIn "PIB_2010.csv" filename then
      if pibRawCol ∈ d.cols then
        if colAllNum d pibRawCol then
          let d2 := assignCol d pibRawCol (fun r =>
            match d.cell r pibRawCol with
            | Value.num q => Value.num (round3 q * 1000)
            | v => v)
          return renameCols d2 [("TERCODIGO", "CodMunIBGE"), (pibRawCol, "PIB 2010 (R$)")]
        else throw "ValueError: could not convert value to float"
      else throw "KeyError: VALUE column absent"
    else if strIn "Arrecadação_2010.csv" filename then
      return renameCols d [("TERCODIGO", "CodMunIBGE"), ("VALUE (R$)", "Receitas Correntes 2010 (R$)")]
    else if strIn "População_2010.csv" filename then
      let d2 := renameCols d [("TERCODIGO", "CodMunIBGE"), ("VALUE (Habitante)", "Habitantes 2010")]
      if "Habitantes 2010" ∈ d2.cols ∧ "CodMunIBGE" ∈ d2.cols then
        return astypeStrCol (astypeIntColBE d2 "Habitantes 2010") "CodMunIBGE"
      else throw "KeyError: astype on absent column"
    else
      return d

/-- Embeds `silver_transform` (lines 66-113): the inner transform wrapped in
the `try/except` that logs `Error transforming data for <filename>` and
returns `None` instead of letting the exception escape. -/
def silver_transform (df : DF) (filename : String) : Option DF × List String :=
  match silverCore df filename with
  | Except.ok d => (some d, [])
  | Except.error e => (none, ["Error transforming data for " ++ filename ++ ": " ++ e])

/-- Embeds the accumulation loop of `data_process` / `main` over already
fetched raw tables: each source whose silver transform succeeds is appended to
`join_list`; a failed source contributes nothing and processing continues. -/
def processAll (inputs : List (DF × String)) : List DF :=
  inputs.filterMap (fun p => (silver_transform p.1 p.2).1)

deriving instance DecidableEq for Except

/- ### Concrete tables used by the scenarios and witnesses -/

/-- Synthetic population table of the spec's merge scenario. -/
def popN : NormalizedTable := ⟨"Habitantes 2010", [("001", Value.num 100)]⟩

/-- Synthetic GDP table of the spec's merge scenario. -/
def gdpN : NormalizedTable := ⟨"PIB 2010 (R$)", [("001", Value.num 50)]⟩

/-- Synthetic tax-revenue table of the spec's merge scenario. -/
def taxN : NormalizedTable := ⟨"Receitas Correntes 2010 (R$)", [("001", Value.num 10)]⟩

/-- Synthetic HDI table of the spec's merge scenario. -/
def hdiN : NormalizedTable := ⟨"IDHM 2010", [("001", Value.num (7/10))]⟩

/-- Synthetic municipality-name table of the spec's merge scenario. -/
def nameN : NormalizedTable := ⟨"Município", [("001", Value.str "Town A")]⟩

/-- The five scenario tables, in the claimed order. -/
def mergeInputsN : List NormalizedTable :=
  [popN, gdpN, taxN, hdiN, nameN]

/-- The five scenario tables as dataframes, in the claimed order. -/
def mergeInputs : List DF :=
  mergeInputsN.map NormalizedTable.toDF

/-- The single surviving row of the scenario merge. -/
def scenarioRow : Row :=
  [Value.str "001", Value.str "Town A", Value.num 100, Value.num (7/10),
   Value.num 50, Value.num 10, Value.num (1/5)]

/-- A raw GDP table (IPEA shape) holding the value `12.3456` (thousands). -/
def pibRaw : DF :=
  ⟨["TERCODIGO", "CODE", "RAW DATE", "YEAR", "NIVNOME", pibRawCol],
   [[Value.str "3550308", Value.str "c", Value.str "2010-01-01", Value.num 2010,
     Value.str "Municípios", Value.num (123456/10000)]]⟩

/-- What the GDP normalization of `silver_transform` actually produces on
`pibRaw`: `12.3456` is rounded to 3 decimals (`12.346`) and then scaled by
1000, giving `12346`. -/
def pibSilverDF : DF :=
  ⟨["CodMunIBGE", "PIB 2010 (R$)"], [[Value.str "3550308", Value.num 12346]]⟩

/-- A gold-shaped table with two non-null rows in descending key order (used
to observe which mutations `gold_finish` applies to a single input table). -/
def unsortedGold : DF :=
  ⟨columnOrder,
   [[Value.str "2", Value.str "B", Value.num 1, Value.num 1, Value.num 1, Value.num 1, Value.num 1],
    [Value.str "1", Value.str "A", Value.num 1, Value.num 1, Value.num 1, Value.num 1, Value.num 1]]⟩

/- ### Claim theorems -/

/-- C2: merging the five synthetic one-row NormalizedTables — population
`("001", 100)`, GDP `("001", 50.0)`, tax `("001", 10.0)`, HDI `("001", 0.7)`,
name `("001", "Town A")` — through `gold_finish` yields exactly one row with
`CodMunIBGE = "001"`, `Município = "Town A"`, `Habitantes 2010 = 100`,
`IDHM 2010 = 0.7`, `PIB 2010 (R$) = 50.0`,
`Receitas Correntes 2010 (R$) = 10.0`,
`Carga Tributária Municipal 2010 = 0.2`. -/
theorem c2_merge_scenario :
    gold_finish mergeInputs = ⟨columnOrder, [scenarioRow]⟩ := by
  with_unfolding_all rfl

/-- C3 counterexample: on a raw GDP value of `12.3456` (thousands) the silver
transform produces `12346`, not the `12345.6` the claim's scenario predicts —
rounding to 3 decimals happens before the ×1000 scaling. -/
theorem c3_counterexample :
    silverCore pibRaw "PIB_2010.csv" = Except.ok pibSilverDF ∧
    pibSilverDF.cell [Value.str "3550308", Value.num 12346] "PIB 2010 (R$)" ≠
      Value.num (61728/5) := by
  constructor
  · with_unfolding_all rfl
  · with_unfolding_all decide

/-- C3 (amended): the GDP normalization casts the raw value to floating
point, rounds it to 3 decimals, then multiplies by 1000; in particular a raw
GDP value of `12.3456` (thousands) normalizes to `12346.0` (the rounding to 3
decimals precedes the ×1000 scaling, so sub-unit precision is lost). -/
theorem c3_gdp_normalization :
    silverCore pibRaw "PIB_2010.csv" = Except.ok pibSilverDF := by
  with_unfolding_all rfl

/-- C4 counterexample: feeding `gold_finish` the single normalized population
table produces a surviving row whose `Município`, `IDHM`, `PIB`, `Receitas`
and `Carga` cells are all missing — the null-drop runs before the reindex, so
the canonical columns introduced by the reindex stay null. -/
theorem c4_counterexample :
    ¬ (∀ r ∈ (goldFinishN [popN]).rows, ∀ c ∈ columnOrder,
        (goldFinishN [popN]).cell r c ≠ Value.null) := by
  with_unfolding_all decide

/-- C6 counterexample: with the GDP source (among others) missing from the
input list, the canonical columns absent from the joined result are introduced
as all-null by the reindex but are NOT removed afterwards: the output still
has its surviving row (with null cells) instead of being empty. -/
theorem c6_counterexample :
    "Município" ∉ (goldMerge [popN.toDF, taxN.toDF]).cols ∧
    (gold_finish [popN.toDF, taxN.toDF]).rows ≠ [] := by
  with_unfolding_all decide

/-- C7 counterexample: with exactly one input table the result of
`gold_finish` is not that table: the reindex forces the canonical 7-column
shape (dropping the table's own layout and introducing null columns), and the
derived column is computed (as null), not skipped. -/
theorem c7_counterexample :
    gold_finish [popN.toDF] ≠ popN.toDF := by
  with_unfolding_all decide

/-- C10 counterexample: with exactly one input table, only the null-drop is
applied in place to the caller's table; the sort happens after `reindex` has
rebound `merged_df` to a fresh frame, so the caller's table is NOT sorted —
here it keeps its descending row order. -/
theorem c10_counterexample :
    goldInputsAfter [unsortedGold] ≠ [sortByKey (dropnaDF unsortedGold)] := by
  with_unfolding_all decide

/- ### Helper lemmas -/

theorem getD_set_of_ne {α : Type} (l : List α) (i j : ℕ) (v d : α) (h : i ≠ j) :
    (l.set i v).getD j d = l.getD j d := by
  simp [List.getD_eq_getElem?_getD, List.getElem?_set_ne h]

theorem getD_set_self_of_lt {α : Type} (l : List α) (i : ℕ) (v d : α) (h : i < l.length) :
    (l.set i v).getD i d = v := by
  simp [List.getD_eq_getElem?_getD, List.getElem?_set_self h]

theorem insertRow_perm (le : Row → Row → Bool) (r : Row) (l : List Row) :
    (insertRow le r l).Perm (r :: l) := by
  induction l with
  | nil => simp [insertRow]
  | cons s t ih =>
      rw [insertRow]
      split
      · exact List.Perm.refl _
      · exact (List.Perm.cons s ih).trans (List.Perm.swap r s t)

theorem sortRows_perm (le : Row → Row → Bool) (l : List Row) :
    (sortRows le l).Perm l := by
  induction l with
  | nil => simp [sortRows]
  | cons r t ih =>
      rw [sortRows]
      exact (insertRow_perm le r (sortRows le t)).trans (List.Perm.cons r ih)

theorem mem_sortRows {le : Row → Row → Bool} {l : List Row} {r : Row} :
    r ∈ sortRows le l ↔ r ∈ l :=
  (sortRows_perm le l).mem_iff

theorem goldSorted_cols (dfs : List DF) : (goldSorted dfs).cols = columnOrder := rfl

theorem carga_mem_goldSorted_cols (dfs : List DF) :
    "Carga Tributária Municipal 2010" ∈ (goldSorted dfs).cols := by
  rw [goldSorted_cols]; with_unfolding_all decide

theorem idx_key : columnOrder.indexOf "CodMunIBGE" = 0 := by with_unfolding_all rfl

theorem idx_pib : columnOrder.indexOf "PIB 2010 (R$)" = 4 := by with_unfolding_all rfl

theorem idx_rec : columnOrder.indexOf "Receitas Correntes 2010 (R$)" = 5 := by
  with_unfolding_all rfl

theorem idx_carga : columnOrder.indexOf "Carga Tributária Municipal 2010" = 6 := by
  with_unfolding_all rfl

theorem gold_finish_cols (dfs : List DF) : (gold_finish dfs).cols = columnOrder := by
  rw [gold_finish, assignCol, if_pos (carga_mem_goldSorted_cols dfs)]
  rfl

theorem gold_finish_rows (dfs : List DF) : (gold_finish dfs).rows =
    (goldSorted dfs).rows.map (fun r =>
      r.set 6 (divVal (r.getD 5 Value.null) (asFloat (r.getD 4 Value.null)))) := by
  rw [gold_finish, assignCol, if_pos (carga_mem_goldSorted_cols dfs)]
  simp only [DF.cell, goldSorted_cols, idx_carga, idx_rec, idx_pib]

theorem gold_finish_cell (dfs : List DF) (r : Row) (c : String) :
    (gold_finish dfs).cell r c = r.getD (columnOrder.indexOf c) Value.null := by
  rw [DF.cell, gold_finish_cols]

theorem goldSorted_row_length (dfs : List DF) {r : Row}
    (hr : r ∈ (goldSorted dfs).rows) : r.length = 7 := by
  rw [goldSorted, sortByKey] at hr
  rw [mem_sortRows] at hr
  rw [reindexDF] at hr
  simp only [List.mem_map] at hr
  obtain ⟨s, _, rfl⟩ := hr
  simp [columnOrder]

/-- C1: for every output of the gold-tier merge and every surviving row whose
tax-revenue and GDP cells hold the numbers `a` and `b` (with `b ≠ 0`, the
division-by-zero edge case being flagged unresolved by the spec), the derived
fiscal-burden cell holds exactly `a / b` — the ratio is computed row-wise
after the null-drop, reindex and sort, so equality is exact, well within the
claimed `1e-9` tolerance. -/
theorem c1_fiscal_burden (dfs : List DF) (r : Row) (a b : ℚ)
    (hr : r ∈ (gold_finish dfs).rows)
    (ha : (gold_finish dfs).cell r "Receitas Correntes 2010 (R$)" = Value.num a)
    (hb : (gold_finish dfs).cell r "PIB 2010 (R$)" = Value.num b)
    (_hb0 : b ≠ 0) :
    (gold_finish dfs).cell r "Carga Tributária Municipal 2010" = Value.num (a / b) := by
  rw [gold_finish_rows] at hr
  simp only [List.mem_map] at hr
  obtain ⟨r0, hr0, rfl⟩ := hr
  rw [gold_finish_cell, idx_rec, getD_set_of_ne _ _ _ _ _ (by omega)] at ha
  rw [gold_finish_cell, idx_pib, getD_set_of_ne _ _ _ _ _ (by omega)] at hb
  rw [gold_finish_cell, idx_carga,
      getD_set_self_of_lt _ _ _ _ (by rw [goldSorted_row_length dfs hr0]; omega)]
  rw [ha, hb]
  rfl

/-- C1 witness: in the five-table scenario merge, the surviving row's derived
cell equals `10 / 50`. -/
theorem c1_witness :
    (gold_finish mergeInputs).cell scenarioRow "Carga Tributária Municipal 2010" =
      Value.num (10 / 50) :=
  c1_fiscal_burden mergeInputs scenarioRow 10 50
    (by with_unfolding_all decide)
    (by with_unfolding_all rfl)
    (by with_unfolding_all rfl)
    (by norm_num)

theorem divVal_null_right (v : Value) : divVal v Value.null = Value.null := by
  cases v <;> rfl

theorem divVal_null_left (v : Value) : divVal Value.null v = Value.null := by
  cases v <;> rfl

theorem getD_map_indexOf (l : List String) (c : String) (f : String → Value) (h : c ∈ l) :
    (l.map f).getD (l.indexOf c) Value.null = f c := by
  induction l with
  | nil => cases h
  | cons a t ih =>
      by_cases hac : a = c
      · subst hac
        rw [List.indexOf_cons_self]
        rfl
      · rw [List.indexOf_cons_ne _ hac]
        simp only [List.map_cons, List.getD_cons_succ]
        exact ih (List.mem_of_ne_of_mem (fun h2 => hac h2.symm) h)

theorem nonnull_getD {r : Row} (h : rowNonnull r = true) {i : ℕ} (hi : i < r.length) :
    r.getD i Value.null ≠ Value.null := by
  rw [rowNonnull, List.all_eq_true] at h
  have hmem : r.getD i Value.null ∈ r := by
    rw [List.getD_eq_getElem?_getD, List.getElem?_eq_getElem hi]
    exact List.getElem_mem hi
  have := h _ hmem
  simpa using this

theorem wf_dropnaDF {df : DF} (h : wfDF df) : wfDF (dropnaDF df) := by
  intro r hr
  rw [dropnaDF] at hr
  exact h r (List.mem_of_mem_filter hr)

theorem wf_astypeStrCol {df : DF} (h : wfDF df) (c : String) : wfDF (astypeStrCol df c) := by
  intro r hr
  rw [astypeStrCol] at hr
  simp only [List.mem_map] at hr
  obtain ⟨s, hs, rfl⟩ := hr
  simp [astypeStrCol, h s hs]

theorem wf_mergeDF {l rt : DF} (hl : wfDF l) : wfDF (mergeDF l rt) := by
  intro r hr
  simp only [mergeDF, List.mem_flatMap] at hr
  obtain ⟨r0, hr0, hmem⟩ := hr
  simp only [mergeDF]
  split at hmem
  · simp only [List.mem_singleton] at hmem
    subst hmem
    simp [hl r0 hr0]
  · simp only [List.mem_map] at hmem
    obtain ⟨s, _, rfl⟩ := hmem
    simp [hl r0 hr0]

theorem wf_goldMerge_aux (ts : List DF) (acc : DF) (hacc : wfDF acc) :
    wfDF (ts.foldl (fun a d => mergeDF a (astypeStrCol d "CodMunIBGE")) acc) := by
  induction ts generalizing acc with
  | nil => exact hacc
  | cons t ts ih => exact ih _ (wf_mergeDF hacc)

theorem wf_goldMerge {dfs : List DF} (h : ∀ df ∈ dfs, wfDF df) : wfDF (goldMerge dfs) := by
  match dfs with
  | [] => intro r hr; cases hr
  | d0 :: rest =>
      rw [goldMerge]
      exact wf_goldMerge_aux rest d0 (h d0 (List.mem_cons_self d0 rest))

theorem indexOf_ne_six_of_ne_carga {c : String} (hcmem : c ∈ columnOrder)
    (hne : c ≠ "Carga Tributária Municipal 2010") : columnOrder.indexOf c ≠ 6 := by
  intro h6
  have hlt : columnOrder.indexOf c < columnOrder.length := List.indexOf_lt_length.mpr hcmem
  have hc := List.getElem_indexOf hlt
  have h7 : columnOrder[columnOrder.indexOf c]? = some c := by
    rw [List.getElem?_eq_getElem hlt, hc]
  rw [h6] at h7
  have h8 : some "Carga Tributária Municipal 2010" = some c := by
    rw [← h7]
    with_unfolding_all rfl
  exact hne (Option.some.inj h8).symm

theorem goldSorted_rows_mem {dfs : List DF} {r : Row} :
    r ∈ (goldSorted dfs).rows ↔
      ∃ r1 ∈ (dropnaDF (goldMerge dfs)).rows,
        r = columnOrder.map (fun c => (goldMerge dfs).cell r1 c) := by
  rw [goldSorted, sortByKey]
  rw [mem_sortRows]
  rw [reindexDF]
  simp only [List.mem_map]
  constructor
  · rintro ⟨r1, h1, rfl⟩
    exact ⟨r1, h1, rfl⟩
  · rintro ⟨r1, h1, rfl⟩
    exact ⟨r1, h1, rfl⟩

/-- C4 (amended): rows with an unresolved join are removed (never imputed) by
the null-drop, and no surviving row has a missing value in any of the 7
canonical columns PROVIDED the six source columns all occur in the joined
result, the surviving tax-revenue cells are numeric, and the surviving GDP
cells are numeric and nonzero (at GDP `0.0` with tax `0.0` line 144 would
compute `0.0/0.0 = NaN`, a missing derived cell — the same division-by-zero
edge case the spec flags unresolved, guarded here as in the C1 theorem);
since the null-drop runs before the reindex, canonical columns absent from
the join would instead surface as all-null columns (see the
counterexample). -/
theorem c4_no_nulls (dfs : List DF)
    (hwf : ∀ df ∈ dfs, wfDF df)
    (_hkey : ∀ df ∈ dfs, "CodMunIBGE" ∈ df.cols)
    (_hnodup : (nonkeyCols dfs).Nodup)
    (hc : ∀ c ∈ columnOrder, c ≠ "Carga Tributária Municipal 2010" →
      c ∈ (goldMerge dfs).cols)
    (hnum : ∀ r ∈ (dropnaDF (goldMerge dfs)).rows,
      isNum ((goldMerge dfs).cell r "Receitas Correntes 2010 (R$)") = true ∧
      isNumNZ ((goldMerge dfs).cell r "PIB 2010 (R$)") = true) :
    ∀ r ∈ (gold_finish dfs).rows, ∀ c ∈ columnOrder,
      (gold_finish dfs).cell r c ≠ Value.null := by
  intro r hr c hcmem
  rw [gold_finish_rows] at hr
  simp only [List.mem_map] at hr
  obtain ⟨r0, hr0, rfl⟩ := hr
  have hlen : r0.length = 7 := goldSorted_row_length dfs hr0
  rw [goldSorted_rows_mem] at hr0
  obtain ⟨r1, hr1, rfl⟩ := hr0
  have hr1m : r1 ∈ (goldMerge dfs).rows := List.mem_of_mem_filter hr1
  have hr1n : rowNonnull r1 = true := List.of_mem_filter hr1
  have hwfm : r1.length = (goldMerge dfs).cols.length := wf_goldMerge hwf r1 hr1m
  by_cases hcc : c = "Carga Tributária Municipal 2010"
  · subst hcc
    rw [gold_finish_cell, idx_carga,
        getD_set_self_of_lt _ _ _ _ (by rw [hlen]; omega)]
    obtain ⟨ha, hb⟩ := hnum r1 hr1
    rw [← idx_rec, ← idx_pib]
    rw [getD_map_indexOf _ _ _ (by with_unfolding_all decide),
        getD_map_indexOf _ _ _ (by with_unfolding_all decide)]
    cases hva : (goldMerge dfs).cell r1 "Receitas Correntes 2010 (R$)" with
    | num a =>
        cases hvb : (goldMerge dfs).cell r1 "PIB 2010 (R$)" with
        | num b => simp [divVal, asFloat]
        | str s => rw [hvb] at hb; simp [isNumNZ] at hb
        | null => rw [hvb] at hb; simp [isNumNZ] at hb
    | str s => rw [hva] at ha; simp [isNum] at ha
    | null => rw [hva] at ha; simp [isNum] at ha
  · rw [gold_finish_cell,
        getD_set_of_ne _ _ _ _ _ (fun h => indexOf_ne_six_of_ne_carga hcmem hcc h.symm),
        getD_map_indexOf _ _ _ hcmem]
    have hcm : c ∈ (goldMerge dfs).cols := hc c hcmem hcc
    rw [DF.cell]
    exact nonnull_getD hr1n (by rw [hwfm]; exact List.indexOf_lt_length.mpr hcm)

/-- C4 witness: in the five-table scenario merge all hypotheses hold and the
`IDHM 2010` cell of the surviving row is not missing. -/
theorem c4_witness :
    (gold_finish mergeInputs).cell scenarioRow "IDHM 2010" ≠ Value.null :=
  c4_no_nulls mergeInputs
    (by with_unfolding_all decide)
    (by with_unfolding_all decide)
    (by with_unfolding_all decide)
    (by with_unfolding_all decide)
    (by with_unfolding_all decide)
    scenarioRow (by with_unfolding_all decide)
    "IDHM 2010" (by with_unfolding_all decide)

theorem sortRows_length (le : Row → Row → Bool) (l : List Row) :
    (sortRows le l).length = l.length :=
  (sortRows_perm le l).length_eq

/-- C6 (amended): a canonical column absent from the joined result is
introduced as an all-null column by the reindex step, but since the null-drop
runs BEFORE the reindex it is not removed: the surviving rows are kept (the
output has exactly as many rows as the null-dropped join) and carry `null` in
that column, so a partial-source outage propagates as null-filled columns —
not as empty output, and not as a crash. -/
theorem c6_absent_column (dfs : List DF)
    (_hne : dfs ≠ [])
    (hwf : ∀ df ∈ dfs, wfDF df)
    (_hkey : ∀ df ∈ dfs, "CodMunIBGE" ∈ df.cols)
    (_hnodup : (nonkeyCols dfs).Nodup)
    (c : String) (hcmem : c ∈ columnOrder)
    (habs : c ∉ (goldMerge dfs).cols)
    (hcc : c ≠ "Carga Tributária Municipal 2010") :
    (gold_finish dfs).rows.length = (dropnaDF (goldMerge dfs)).rows.length ∧
    ∀ r ∈ (gold_finish dfs).rows, (gold_finish dfs).cell r c = Value.null := by
  constructor
  · rw [gold_finish_rows, List.length_map, goldSorted, sortByKey]
    show (sortRows _ _).length = _
    rw [sortRows_length, reindexDF]
    exact List.length_map _ _
  · intro r hr
    rw [gold_finish_rows] at hr
    simp only [List.mem_map] at hr
    obtain ⟨r0, hr0, rfl⟩ := hr
    rw [goldSorted_rows_mem] at hr0
    obtain ⟨r1, hr1, rfl⟩ := hr0
    have hr1m : r1 ∈ (goldMerge dfs).rows := List.mem_of_mem_filter hr1
    have hwfm : r1.length = (goldMerge dfs).cols.length := wf_goldMerge hwf r1 hr1m
    rw [gold_finish_cell,
        getD_set_of_ne _ _ _ _ _ (fun h => indexOf_ne_six_of_ne_carga hcmem hcc h.symm),
        getD_map_indexOf _ _ _ hcmem, DF.cell]
    rw [List.getD_eq_default]
    rw [hwfm]
    exact le_of_eq (List.indexOf_eq_length.mpr habs).symm

/-- C6 witness: merging only the population and tax tables (GDP, HDI and name
sources missing), the `Município` column is absent from the join, yet the
output keeps its surviving row, with a null `Município` cell. -/
theorem c6_witness :
    (gold_finish [popN.toDF, taxN.toDF]).rows.length =
      (dropnaDF (goldMerge [popN.toDF, taxN.toDF])).rows.length ∧
    ∀ r ∈ (gold_finish [popN.toDF, taxN.toDF]).rows,
      (gold_finish [popN.toDF, taxN.toDF]).cell r "Município" = Value.null :=
  c6_absent_column [popN.toDF, taxN.toDF]
    (by with_unfolding_all decide)
    (by with_unfolding_all decide)
    (by with_unfolding_all decide)
    (by with_unfolding_all decide)
    "Município" (by with_unfolding_all decide)
    (by with_unfolding_all decide)
    (by with_unfolding_all decide)

/-- C7 (amended): with exactly one input table no join is performed
(`goldMerge [df] = df`), but the result is NOT that table unchanged: the
null-drop, canonical reindex, sort and derived-column assignment still run.
The derived-column step is not skipped when the tax-revenue or GDP source
column is absent — it executes and fills the derived column with null (NaN),
failing gracefully instead of crashing. -/
theorem c7_single_table (df : DF) (hwf : wfDF df)
    (habs : "Receitas Correntes 2010 (R$)" ∉ df.cols ∨ "PIB 2010 (R$)" ∉ df.cols) :
    goldMerge [df] = df ∧
    ∀ r ∈ (gold_finish [df]).rows,
      (gold_finish [df]).cell r "Carga Tributária Municipal 2010" = Value.null := by
  refine ⟨rfl, ?_⟩
  intro r hr
  rw [gold_finish_rows] at hr
  simp only [List.mem_map] at hr
  obtain ⟨r0, hr0, rfl⟩ := hr
  have hlen : r0.length = 7 := goldSorted_row_length [df] hr0
  rw [goldSorted_rows_mem] at hr0
  obtain ⟨r1, hr1, rfl⟩ := hr0
  have hr1m : r1 ∈ (goldMerge [df]).rows := List.mem_of_mem_filter hr1
  have hwfm : r1.length = df.cols.length := hwf r1 hr1m
  rw [gold_finish_cell, idx_carga,
      getD_set_self_of_lt _ _ _ _ (by rw [hlen]; omega)]
  rw [← idx_rec, ← idx_pib]
  rw [getD_map_indexOf _ _ _ (by with_unfolding_all decide),
      getD_map_indexOf _ _ _ (by with_unfolding_all decide)]
  rcases habs with habs | habs
  · have : (goldMerge [df]).cell r1 "Receitas Correntes 2010 (R$)" = Value.null := by
      show df.cell r1 _ = Value.null
      rw [DF.cell, List.getD_eq_default]
      rw [hwfm]
      exact le_of_eq (List.indexOf_eq_length.mpr habs).symm
    rw [this, divVal_null_left]
  · have : (goldMerge [df]).cell r1 "PIB 2010 (R$)" = Value.null := by
      show df.cell r1 _ = Value.null
      rw [DF.cell, List.getD_eq_default]
      rw [hwfm]
      exact le_of_eq (List.indexOf_eq_length.mpr habs).symm
    rw [this]
    show divVal _ Value.null = Value.null
    exact divVal_null_right _

/-- C7 witness: on the single population table, no join happens and the
derived cell of the surviving row is null. -/
theorem c7_witness :
    goldMerge [popN.toDF] = popN.toDF ∧
    ∀ r ∈ (gold_finish [popN.toDF]).rows,
      (gold_finish [popN.toDF]).cell r "Carga Tributária Municipal 2010" = Value.null :=
  c7_single_table popN.toDF
    (by with_unfolding_all decide)
    (Or.inl (by with_unfolding_all decide))

/-- C10 (amended): `gold_finish` mutates its input tables as follows — with
two or more tables, the key column of every table after the first is coerced
to string in place, the first table keeping its original key type (it is not
mutated at all); with exactly one table, only the null-drop is applied in
place to the input table: the sort (and the derived column) happen after the
reindex has rebound `merged_df` to a fresh frame, so they never reach the
caller's table. -/
theorem c10_frame_effects (d0 : DF) (rest : List DF) :
    goldInputsAfter [d0] = [dropnaDF d0] ∧
    (rest ≠ [] → goldInputsAfter (d0 :: rest) =
      d0 :: rest.map (fun t => astypeStrCol t "CodMunIBGE")) := by
  refine ⟨rfl, fun hne => ?_⟩
  match rest with
  | [] => exact absurd rfl hne
  | t :: ts => rfl

/-- C10 witness: the two frame-effect equations at concrete tables. -/
theorem c10_witness :
    goldInputsAfter [popN.toDF] = [dropnaDF popN.toDF] ∧
    goldInputsAfter [popN.toDF, gdpN.toDF] =
      [popN.toDF, astypeStrCol gdpN.toDF "CodMunIBGE"] :=
  ⟨(c10_frame_effects popN.toDF [gdpN.toDF]).1,
   (c10_frame_effects popN.toDF [gdpN.toDF]).2 (by with_unfolding_all decide)⟩

/-- C9: any exception inside the silver normalization is caught: the wrapped
transform returns `none` (never propagating the exception) and logs a message
carrying the source identifier, and the orchestrator's accumulation loop
excludes exactly that source from the merge input while processing all the
sources before and after it unchanged. -/
theorem c9_soft_failure (df : DF) (fn e : String) (pre post : List (DF × String))
    (h : silverCore df fn = Except.error e) :
    (silver_transform df fn).1 = none ∧
    (silver_transform df fn).2 = ["Error transforming data for " ++ fn ++ ": " ++ e] ∧
    processAll (pre ++ (df, fn) :: post) = processAll pre ++ processAll post := by
  refine ⟨?_, ?_, ?_⟩
  · rw [silver_transform, h]
  · rw [silver_transform, h]
  · rw [processAll, processAll, processAll, List.filterMap_append, List.filterMap_cons]
    have h2 : (silver_transform df fn).1 = none := by rw [silver_transform, h]
    simp only [h2]

/-- C9 witness: a raw table without the `NIVNOME` column makes the generic
filter raise; the source is logged, skipped, and the following source is still
processed. -/
theorem c9_witness :
    (silver_transform ⟨[], []⟩ "PIB_2010.csv").1 = none ∧
    (silver_transform ⟨[], []⟩ "PIB_2010.csv").2 =
      ["Error transforming data for " ++ "PIB_2010.csv" ++ ": " ++
        "name not defined: NIVNOME"] ∧
    processAll ([] ++ (⟨[], []⟩, "PIB_2010.csv") :: [(pibRaw, "PIB_2010.csv")]) =
      processAll [] ++ processAll [(pibRaw, "PIB_2010.csv")] :=
  c9_soft_failure ⟨[], []⟩ "PIB_2010.csv" "name not defined: NIVNOME" []
    [(pibRaw, "PIB_2010.csv")] (by with_unfolding_all rfl)

theorem astypeStr_toDF (t : NormalizedTable) :
    astypeStrCol t.toDF "CodMunIBGE" = t.toDF := by
  rw [NormalizedTable.toDF, astypeStrCol]
  congr 1
  rw [List.map_map]
  apply List.map_congr_left
  intro p _
  simp [List.indexOf_cons_self, valueToStr]

theorem rcols_toDF (t : NormalizedTable) (h : t.ind ≠ "CodMunIBGE") :
    t.toDF.cols.filter (fun c => decide (c ≠ "CodMunIBGE")) = [t.ind] := by
  rw [NormalizedTable.toDF]
  simp [List.filter, h]

theorem cell_toDF_key (t : NormalizedTable) (r : Row) :
    t.toDF.cell r "CodMunIBGE" = r.getD 0 Value.null := by
  rw [DF.cell, NormalizedTable.toDF]
  rw [List.indexOf_cons_self]

theorem cell_toDF_ind (t : NormalizedTable) (r : Row) (h : t.ind ≠ "CodMunIBGE") :
    t.toDF.cell r t.ind = r.getD 1 Value.null := by
  rw [DF.cell, NormalizedTable.toDF]
  rw [List.indexOf_cons_ne _ (fun h2 => h h2.symm), List.indexOf_cons_self]

theorem mergeDF_toDF_cols (l : DF) (t : NormalizedTable) (h : t.ind ≠ "CodMunIBGE") :
    (mergeDF l t.toDF).cols = l.cols ++ [t.ind] := by
  show l.cols ++ _ = _
  rw [rcols_toDF t h]

theorem goldFold_cols (ts : List NormalizedTable) (acc : DF)
    (h : ∀ t ∈ ts, t.ind ≠ "CodMunIBGE") :
    (ts.foldl (fun a t => mergeDF a (astypeStrCol t.toDF "CodMunIBGE")) acc).cols
      = acc.cols ++ ts.map NormalizedTable.ind := by
  induction ts generalizing acc with
  | nil => simp
  | cons t ts ih =>
      rw [List.foldl_cons, ih _ (fun u hu => h u (List.mem_cons_of_mem _ hu))]
      rw [astypeStr_toDF, mergeDF_toDF_cols _ _ (h t (List.mem_cons_self _ _))]
      simp

theorem goldMergeN_eq_fold (t0 : NormalizedTable) (rest : List NormalizedTable) :
    goldMerge ((t0 :: rest).map NormalizedTable.toDF)
      = rest.foldl (fun a t => mergeDF a (astypeStrCol t.toDF "CodMunIBGE")) t0.toDF := by
  rw [List.map_cons, goldMerge, List.foldl_map]

theorem goldMergeN_cols (t0 : NormalizedTable) (rest : List NormalizedTable)
    (h : ∀ t ∈ rest, t.ind ≠ "CodMunIBGE") :
    (goldMerge ((t0 :: rest).map NormalizedTable.toDF)).cols
      = "CodMunIBGE" :: t0.ind :: rest.map NormalizedTable.ind := by
  rw [goldMergeN_eq_fold, goldFold_cols rest t0.toDF h]
  rfl

theorem rowNonnull_append (r s : Row) :
    rowNonnull (r ++ s) = (rowNonnull r && rowNonnull s) := by
  simp [rowNonnull, List.all_append]

theorem getD_append_of_lt {α : Type} (l l2 : List α) (i : ℕ) (d : α) (h : i < l.length) :
    (l ++ l2).getD i d = l.getD i d := by
  rw [List.getD_eq_getElem?_getD, List.getD_eq_getElem?_getD, List.getElem?_append_left h]

theorem toDF_rows_mem {t : NormalizedTable} {r : Row} :
    r ∈ t.toDF.rows ↔ ∃ p ∈ t.rows, r = [Value.str p.1, p.2] := by
  rw [NormalizedTable.toDF]
  simp only [List.mem_map]
  constructor
  · rintro ⟨p, hp, rfl⟩; exact ⟨p, hp, rfl⟩
  · rintro ⟨p, hp, rfl⟩; exact ⟨p, hp, rfl⟩

theorem cell_cons_key (acc : DF) (cs : List String) (hacc : acc.cols = "CodMunIBGE" :: cs)
    (r : Row) : acc.cell r "CodMunIBGE" = r.getD 0 Value.null := by
  rw [DF.cell, hacc, List.indexOf_cons_self]


theorem mergeDF_toDF_mem (acc : DF) (cs : List String) (hacc : acc.cols = "CodMunIBGE" :: cs)
    (t : NormalizedTable) (hind : t.ind ≠ "CodMunIBGE") (r1 : Row) :
    (r1 ∈ (mergeDF acc t.toDF).rows ∧ rowNonnull r1 = true) ↔
    ∃ r ∈ acc.rows, rowNonnull r = true ∧
      ∃ k v, r.getD 0 Value.null = Value.str k ∧ (k, v) ∈ t.rows ∧ v ≠ Value.null ∧
        r1 = r ++ [v] := by
  constructor
  · rintro ⟨hmem, hnn⟩
    simp only [mergeDF, List.mem_flatMap] at hmem
    obtain ⟨r, hr, hbranch⟩ := hmem
    rw [rcols_toDF t hind] at hbranch
    split at hbranch
    · simp only [List.mem_singleton] at hbranch
      subst hbranch
      rw [rowNonnull_append] at hnn
      simp [rowNonnull] at hnn
    · simp only [List.mem_map] at hbranch
      obtain ⟨s, hs, rfl⟩ := hbranch
      rw [List.mem_filter] at hs
      obtain ⟨hsrows, hcond⟩ := hs
      rw [decide_eq_true_eq] at hcond
      obtain ⟨p, hp, rfl⟩ := toDF_rows_mem.mp hsrows
      rw [cell_cons_key acc cs hacc, cell_toDF_key] at hcond
      obtain ⟨hne0, hkey⟩ := hcond
      rw [rowNonnull_append] at hnn
      rw [Bool.and_eq_true] at hnn
      refine ⟨r, hr, hnn.1, p.1, p.2, ?_, hp, ?_, ?_⟩
      · rw [← hkey]; rfl
      · have h2 := hnn.2
        simp [rowNonnull, cell_toDF_ind t _ hind] at h2
        exact h2
      · simp [cell_toDF_ind t _ hind]
  · rintro ⟨r, hr, hnn, k, v, hk, hkv, hv, rfl⟩
    have hrne : r ≠ [] := by
      intro hcontra
      rw [hcontra] at hk
      simp [List.getD] at hk
    have hcell : acc.cell r "CodMunIBGE" = Value.str k := by
      rw [cell_cons_key acc cs hacc, hk]
    constructor
    · simp only [mergeDF, List.mem_flatMap]
      refine ⟨r, hr, ?_⟩
      rw [rcols_toDF t hind]
      have hs0 : [Value.str k, v] ∈ t.toDF.rows := toDF_rows_mem.mpr ⟨(k, v), hkv, rfl⟩
      have hcond : decide (acc.cell r "CodMunIBGE" ≠ Value.null ∧
          t.toDF.cell [Value.str k, v] "CodMunIBGE" = acc.cell r "CodMunIBGE") = true := by
        rw [decide_eq_true_eq, hcell, cell_toDF_key]
        exact ⟨fun h => Value.noConfusion h, rfl⟩
      have hsm : [Value.str k, v] ∈ t.toDF.rows.filter (fun s =>
          decide (acc.cell r "CodMunIBGE" ≠ Value.null ∧
            t.toDF.cell s "CodMunIBGE" = acc.cell r "CodMunIBGE")) :=
        List.mem_filter.mpr ⟨hs0, hcond⟩
      rw [if_neg (by
        simp only [List.isEmpty_iff, List.filter_eq_nil_iff, decide_eq_true_eq, not_forall]
        push_neg
        exact ⟨[Value.str k, v], hs0, (decide_eq_true_eq.mp hcond).1,
          (decide_eq_true_eq.mp hcond).2⟩)]
      simp only [List.mem_map, List.mem_filter, decide_eq_true_eq]
      refine ⟨[Value.str k, v], ⟨hs0, ?_, ?_⟩, ?_⟩
      · rw [hcell]; exact fun h => Value.noConfusion h
      · rw [cell_toDF_key, hcell]; rfl
      · simp [cell_toDF_ind t _ hind]
    · rw [rowNonnull_append, hnn]
      simp [rowNonnull, hv]

theorem goldFold_rows_mem (ts : List NormalizedTable) (acc : DF) (cs : List String)
    (hacc : acc.cols = "CodMunIBGE" :: cs)
    (hind : ∀ t ∈ ts, t.ind ≠ "CodMunIBGE") (r' : Row) :
    (r' ∈ (ts.foldl (fun a t => mergeDF a (astypeStrCol t.toDF "CodMunIBGE")) acc).rows
      ∧ rowNonnull r' = true) ↔
    ∃ r ∈ acc.rows, rowNonnull r = true ∧ ∃ s : List Value, r' = r ++ s ∧
      List.Forall₂ (fun t v => ∃ k, r.getD 0 Value.null = Value.str k ∧
        (k, v) ∈ t.rows ∧ v ≠ Value.null) ts s := by
  induction ts generalizing acc cs with
  | nil =>
      simp only [List.foldl_nil]
      constructor
      · rintro ⟨h1, h2⟩
        exact ⟨r', h1, h2, [], by simp, List.Forall₂.nil⟩
      · rintro ⟨r, hr, hnn, s, rfl, hf⟩
        cases hf
        simpa using ⟨hr, hnn⟩
  | cons t ts2 ih =>
      rw [List.foldl_cons, astypeStr_toDF]
      have hindt : t.ind ≠ "CodMunIBGE" := hind t (List.mem_cons_self _ _)
      have hind2 : ∀ u ∈ ts2, u.ind ≠ "CodMunIBGE" :=
        fun u hu => hind u (List.mem_cons_of_mem _ hu)
      have hacc2 : (mergeDF acc t.toDF).cols = "CodMunIBGE" :: (cs ++ [t.ind]) := by
        rw [mergeDF_toDF_cols _ _ hindt, hacc]
        rfl
      rw [ih (mergeDF acc t.toDF) _ hacc2 hind2]
      constructor
      · rintro ⟨r1, hr1, hnn1, s2, rfl, hf2⟩
        obtain ⟨r, hr, hnn, k, v, hk, hkv, hv, rfl⟩ :=
          (mergeDF_toDF_mem acc cs hacc t hindt r1).mp ⟨hr1, hnn1⟩
        have hrne : r ≠ [] := by
          intro hcontra
          rw [hcontra] at hk
          simp [List.getD] at hk
        have hgd : (r ++ [v]).getD 0 Value.null = r.getD 0 Value.null :=
          getD_append_of_lt _ _ _ _ (by
            cases r with
            | nil => exact absurd rfl hrne
            | cons a l => simp)
        rw [hgd] at hf2
        refine ⟨r, hr, hnn, v :: s2, by rw [List.append_assoc]; rfl, ?_⟩
        exact List.Forall₂.cons ⟨k, hk, hkv, hv⟩ hf2
      · rintro ⟨r, hr, hnn, s, rfl, hf⟩
        cases hf with
        | @cons _ v _ s2 hhead htail =>
            obtain ⟨k, hk, hkv, hv⟩ := hhead
            have hrne : r ≠ [] := by
              intro hcontra
              rw [hcontra] at hk
              simp [List.getD] at hk
            obtain ⟨hm1, hm2⟩ := (mergeDF_toDF_mem acc cs hacc t hindt (r ++ [v])).mpr
              ⟨r, hr, hnn, k, v, hk, hkv, hv, rfl⟩
            have hgd : (r ++ [v]).getD 0 Value.null = r.getD 0 Value.null :=
              getD_append_of_lt _ _ _ _ (by
                cases r with
                | nil => exact absurd rfl hrne
                | cons a l => simp)
            refine ⟨r ++ [v], hm1, hm2, s2, by rw [List.append_assoc]; rfl, ?_⟩
            rw [hgd]
            exact htail

theorem goldN_dropna_mem (t0 : NormalizedTable) (rest : List NormalizedTable)
    (hind : ∀ t ∈ t0 :: rest, t.ind ≠ "CodMunIBGE") (r : Row) :
    r ∈ (dropnaDF (goldMerge ((t0 :: rest).map NormalizedTable.toDF))).rows ↔
    ∃ (k : String) (s : List Value),
      List.Forall₂ (fun t v => (k, v) ∈ t.rows ∧ v ≠ Value.null) (t0 :: rest) s ∧
      r = Value.str k :: s := by
  show r ∈ List.filter _ _ ↔ _
  rw [List.mem_filter, goldMergeN_eq_fold,
    goldFold_rows_mem rest t0.toDF [t0.ind] rfl (fun u hu => hind u (List.mem_cons_of_mem _ hu))]
  constructor
  · rintro ⟨r0, hr0, hnn0, s, rfl, hf⟩
    obtain ⟨p, hp, rfl⟩ := toDF_rows_mem.mp hr0
    have hv0 : p.2 ≠ Value.null := by
      simp [rowNonnull] at hnn0
      exact hnn0
    refine ⟨p.1, p.2 :: s, ?_, rfl⟩
    refine List.Forall₂.cons ⟨hp, hv0⟩ (hf.imp ?_)
    rintro u v ⟨k2, hk2, hkv2, hv2⟩
    have : p.1 = k2 := by
      have h0 : [Value.str p.1, p.2].getD 0 Value.null = Value.str p.1 := rfl
      rw [h0] at hk2
      exact Value.str.inj hk2
    rw [this]
    exact ⟨hkv2, hv2⟩
  · rintro ⟨k, s, hf, rfl⟩
    cases hf with
    | @cons _ v0 _ s2 hhead htail =>
        refine ⟨[Value.str k, v0], toDF_rows_mem.mpr ⟨(k, v0), hhead.1, rfl⟩, ?_, s2, rfl, ?_⟩
        · simp [rowNonnull, hhead.2]
        · exact htail.imp (fun u v ⟨h1, h2⟩ => ⟨k, rfl, h1, h2⟩)

theorem byName_null_of_not_mem (ts : List NormalizedTable) (s : List Value) (c : String)
    (h : c ∉ ts.map NormalizedTable.ind) : byName ts s c = Value.null := by
  induction ts generalizing s with
  | nil => cases s <;> rfl
  | cons t ts2 ih =>
      cases s with
      | nil => rfl
      | cons v s2 =>
          rw [byName]
          rw [if_neg (fun h2 => h (by rw [List.map_cons, h2]; exact List.mem_cons_self _ _))]
          exact ih s2 (fun h2 => h (List.mem_cons_of_mem _ h2))

theorem byName_eq_of_mem_zip (ts : List NormalizedTable) (s : List Value)
    (t : NormalizedTable) (v : Value) (c : String)
    (hnd : (ts.map NormalizedTable.ind).Nodup)
    (hmem : (t, v) ∈ ts.zip s) (hc : t.ind = c) :
    byName ts s c = v := by
  induction ts generalizing s with
  | nil => cases hmem
  | cons t0 ts2 ih =>
      cases s with
      | nil => cases hmem
      | cons v0 s2 =>
          rw [List.zip_cons_cons, List.mem_cons] at hmem
          rw [byName]
          rcases hmem with heq | hmem2
          · rw [Prod.mk.injEq] at heq
            obtain ⟨heq1, heq2⟩ := heq
            subst heq1
            subst heq2
            rw [if_pos hc]
          · have htmem : t ∈ ts2 := (List.of_mem_zip hmem2).1
            have hne : t0.ind ≠ c := by
              intro h2
              rw [List.map_cons, List.nodup_cons] at hnd
              exact hnd.1 (by rw [h2, ← hc]; exact List.mem_map_of_mem _ htmem)
            rw [if_neg hne]
            exact ih s2 (by rw [List.map_cons, List.nodup_cons] at hnd; exact hnd.2) hmem2

theorem forall₂_mem_zip {R : NormalizedTable → Value → Prop}
    {ts : List NormalizedTable} {s : List Value} (hf : List.Forall₂ R ts s)
    {t : NormalizedTable} (ht : t ∈ ts) : ∃ v, (t, v) ∈ ts.zip s ∧ R t v := by
  induction hf with
  | nil => cases ht
  | @cons a b l1 l2 hab htail ih =>
      rcases List.mem_cons.mp ht with rfl | ht2
      · exact ⟨b, List.mem_cons_self _ _, hab⟩
      · obtain ⟨v, hv1, hv2⟩ := ih ht2
        exact ⟨v, List.mem_cons_of_mem _ hv1, hv2⟩

theorem forall₂_perm_transport {R : NormalizedTable → Value → Prop} :
    ∀ {ts ts2 : List NormalizedTable}, ts.Perm ts2 →
    ∀ {s : List Value}, List.Forall₂ R ts s →
    ∃ s2, List.Forall₂ R ts2 s2 ∧ (ts.zip s).Perm (ts2.zip s2) := by
  intro ts ts2 hperm
  induction hperm with
  | nil =>
      intro s hf
      cases hf
      exact ⟨[], List.Forall₂.nil, List.Perm.refl _⟩
  | @cons x l1 l2 p ih =>
      intro s hf
      cases hf with
      | @cons _ v _ s1 hhead htail =>
          obtain ⟨s2, hf2, hp2⟩ := ih htail
          exact ⟨v :: s2, List.Forall₂.cons hhead hf2, by
            rw [List.zip_cons_cons, List.zip_cons_cons]
            exact List.Perm.cons _ hp2⟩
  | @swap x y l =>
      intro s hf
      cases hf with
      | @cons _ v1 _ s1 h1 htail1 =>
          cases htail1 with
          | @cons _ v2 _ s2 h2 htail2 =>
              refine ⟨v2 :: v1 :: s2, List.Forall₂.cons h2 (List.Forall₂.cons h1 htail2), ?_⟩
              rw [List.zip_cons_cons, List.zip_cons_cons, List.zip_cons_cons, List.zip_cons_cons]
              exact List.Perm.swap _ _ _
  | @trans l1 l2 l3 p1 p2 ih1 ih2 =>
      intro s hf
      obtain ⟨s2, hf2, hp2⟩ := ih1 hf
      obtain ⟨s3, hf3, hp3⟩ := ih2 hf2
      exact ⟨s3, hf3, hp2.trans hp3⟩

theorem getD_indexOf_byName (ts : List NormalizedTable) (s : List Value) (c : String)
    (hl : s.length = ts.length) :
    s.getD ((ts.map NormalizedTable.ind).indexOf c) Value.null = byName ts s c := by
  induction ts generalizing s with
  | nil =>
      cases s with
      | nil => rfl
      | cons v s2 => cases hl
  | cons t ts2 ih =>
      cases s with
      | nil => cases hl
      | cons v s2 =>
          rw [List.map_cons]
          by_cases hc : t.ind = c
          · rw [List.indexOf_cons_eq _ hc, byName, if_pos hc]
            rfl
          · rw [List.indexOf_cons_ne _ hc, byName, if_neg hc]
            rw [List.getD_cons_succ]
            exact ih s2 (by simpa using hl)

theorem cell_merged_key (t0 : NormalizedTable) (rest : List NormalizedTable)
    (hind : ∀ t ∈ rest, t.ind ≠ "CodMunIBGE") (k : String) (s : List Value) :
    (goldMerge ((t0 :: rest).map NormalizedTable.toDF)).cell (Value.str k :: s) "CodMunIBGE"
      = Value.str k := by
  rw [DF.cell, goldMergeN_cols t0 rest hind, List.indexOf_cons_self]
  rfl

theorem cell_merged_nonkey (t0 : NormalizedTable) (rest : List NormalizedTable)
    (hind : ∀ t ∈ rest, t.ind ≠ "CodMunIBGE") (k : String) (s : List Value) (c : String)
    (hc : c ≠ "CodMunIBGE") (hl : s.length = (t0 :: rest).length) :
    (goldMerge ((t0 :: rest).map NormalizedTable.toDF)).cell (Value.str k :: s) c
      = byName (t0 :: rest) s c := by
  rw [DF.cell, goldMergeN_cols t0 rest hind,
      List.indexOf_cons_ne _ (fun h => hc h.symm), List.getD_cons_succ]
  exact getD_indexOf_byName (t0 :: rest) s c hl

theorem merged_row_map (t0 : NormalizedTable) (rest : List NormalizedTable)
    (hind : ∀ t ∈ rest, t.ind ≠ "CodMunIBGE") (k : String) (s : List Value)
    (hl : s.length = (t0 :: rest).length) :
    columnOrder.map
      (fun c => (goldMerge ((t0 :: rest).map NormalizedTable.toDF)).cell (Value.str k :: s) c)
    = [Value.str k, byName (t0 :: rest) s "Município", byName (t0 :: rest) s "Habitantes 2010",
       byName (t0 :: rest) s "IDHM 2010", byName (t0 :: rest) s "PIB 2010 (R$)",
       byName (t0 :: rest) s "Receitas Correntes 2010 (R$)",
       byName (t0 :: rest) s "Carga Tributária Municipal 2010"] := by
  simp only [columnOrder, List.map_cons, List.map_nil]
  have h0 := cell_merged_key t0 rest hind k s
  have h1 := cell_merged_nonkey t0 rest hind k s "Município" (by decide) hl
  have h2 := cell_merged_nonkey t0 rest hind k s "Habitantes 2010" (by decide) hl
  have h3 := cell_merged_nonkey t0 rest hind k s "IDHM 2010" (by decide) hl
  have h4 := cell_merged_nonkey t0 rest hind k s "PIB 2010 (R$)" (by decide) hl
  have h5 := cell_merged_nonkey t0 rest hind k s "Receitas Correntes 2010 (R$)" (by decide) hl
  have h6 := cell_merged_nonkey t0 rest hind k s "Carga Tributária Municipal 2010" (by decide) hl
  simp only [List.map_cons] at h0 h1 h2 h3 h4 h5 h6
  rw [h0, h1, h2, h3, h4, h5, h6]

theorem goldFinishN_mem (t0 : NormalizedTable) (rest : List NormalizedTable)
    (hind : ∀ t ∈ t0 :: rest, t.ind ≠ "CodMunIBGE") (r' : Row) :
    r' ∈ (goldFinishN (t0 :: rest)).rows ↔
    ∃ (k : String) (s : List Value),
      List.Forall₂ (fun t v => (k, v) ∈ t.rows ∧ v ≠ Value.null) (t0 :: rest) s ∧
      r' = outRow (t0 :: rest) k s := by
  have hind2 : ∀ t ∈ rest, t.ind ≠ "CodMunIBGE" :=
    fun u hu => hind u (List.mem_cons_of_mem _ hu)
  rw [goldFinishN, gold_finish_rows]
  simp only [List.mem_map]
  constructor
  · rintro ⟨r0, hr0, rfl⟩
    rw [goldSorted_rows_mem] at hr0
    obtain ⟨r1, hr1, rfl⟩ := hr0
    rw [goldN_dropna_mem t0 rest hind] at hr1
    obtain ⟨k, s, hf, rfl⟩ := hr1
    have hl : s.length = (t0 :: rest).length := hf.length_eq.symm
    refine ⟨k, s, hf, ?_⟩
    rw [merged_row_map t0 rest hind2 k s hl, outRow]
    rfl
  · rintro ⟨k, s, hf, rfl⟩
    have hl : s.length = (t0 :: rest).length := hf.length_eq.symm
    refine ⟨columnOrder.map
      (fun c => (goldMerge ((t0 :: rest).map NormalizedTable.toDF)).cell (Value.str k :: s) c),
      ?_, ?_⟩
    · rw [goldSorted_rows_mem]
      exact ⟨Value.str k :: s, (goldN_dropna_mem t0 rest hind _).mpr ⟨k, s, hf, rfl⟩, rfl⟩
    · rw [merged_row_map t0 rest hind2 k s hl, outRow]
      rfl

theorem goldFinishN_mem_ne (ts : List NormalizedTable) (hne : ts ≠ [])
    (hind : ∀ t ∈ ts, t.ind ≠ "CodMunIBGE") (r : Row) :
    r ∈ (goldFinishN ts).rows ↔
    ∃ (k : String) (s : List Value),
      List.Forall₂ (fun t v => (k, v) ∈ t.rows ∧ v ≠ Value.null) ts s ∧
      r = outRow ts k s := by
  match ts, hne with
  | t0 :: rest, _ => exact goldFinishN_mem t0 rest hind r

/-- C5: every `CodMunIBGE` value of the merged output lies in the key set of
every input table — the output key set is contained in the intersection of
all input key sets (dropping a row as soon as any join is unresolved). -/
theorem c5_key_subset (ts : List NormalizedTable) (hne : ts ≠ [])
    (hind : ∀ t ∈ ts, t.ind ≠ "CodMunIBGE")
    (r : Row) (hr : r ∈ (goldFinishN ts).rows) (k : String)
    (hk : (goldFinishN ts).cell r "CodMunIBGE" = Value.str k) :
    ∀ t ∈ ts, k ∈ t.keys := by
  rw [goldFinishN_mem_ne ts hne hind] at hr
  obtain ⟨k2, s, hf, rfl⟩ := hr
  have hcell : (goldFinishN ts).cell (outRow ts k2 s) "CodMunIBGE" = Value.str k2 := by
    rw [goldFinishN, gold_finish_cell, idx_key]
    rfl
  rw [hcell] at hk
  obtain rfl : k2 = k := Value.str.inj hk
  intro t ht
  obtain ⟨v, _, hv2⟩ := forall₂_mem_zip hf ht
  rw [NormalizedTable.keys]
  exact List.mem_map_of_mem _ hv2.1

theorem outRow_eq_of_transport {P : NormalizedTable → Value → Prop}
    (ts ts2 : List NormalizedTable) (s s2 : List Value) (k : String)
    (hperm : ts.Perm ts2)
    (hnodup : (ts.map NormalizedTable.ind).Nodup)
    (hnodup2 : (ts2.map NormalizedTable.ind).Nodup)
    (hf : List.Forall₂ P ts s)
    (hzip : (ts.zip s).Perm (ts2.zip s2)) :
    outRow ts k s = outRow ts2 k s2 := by
  have hby : ∀ c, byName ts s c = byName ts2 s2 c := by
    intro c
    by_cases hcmem : c ∈ ts.map NormalizedTable.ind
    · obtain ⟨t, ht, hteq⟩ := List.mem_map.mp hcmem
      obtain ⟨v, hv1, _⟩ := forall₂_mem_zip hf ht
      rw [byName_eq_of_mem_zip ts s t v c hnodup hv1 hteq]
      exact (byName_eq_of_mem_zip ts2 s2 t v c hnodup2 (hzip.mem_iff.mp hv1) hteq).symm
    · rw [byName_null_of_not_mem ts s c hcmem,
          byName_null_of_not_mem ts2 s2 c (fun h => hcmem ((hperm.map _).mem_iff.mpr h))]
  simp only [outRow, hby]

/-- C8: re-ordering the input list of NormalizedTables before the merge does
not change the surviving rows: each output row (including its derived
fiscal-burden value) appears for one order exactly when it appears for the
other, although the intermediate join steps differ. -/
theorem c8_order_invariance (ts ts2 : List NormalizedTable) (hperm : ts.Perm ts2)
    (hne : ts ≠ [])
    (hind : ∀ t ∈ ts, t.ind ≠ "CodMunIBGE")
    (hnodup : (ts.map NormalizedTable.ind).Nodup) (r : Row) :
    r ∈ (goldFinishN ts).rows ↔ r ∈ (goldFinishN ts2).rows := by
  have hne2 : ts2 ≠ [] := by
    intro h
    exact hne (List.length_eq_zero.mp (by rw [hperm.length_eq, h]; rfl))
  have hind2 : ∀ t ∈ ts2, t.ind ≠ "CodMunIBGE" := fun t ht => hind t (hperm.mem_iff.mpr ht)
  have hnodup2 : (ts2.map NormalizedTable.ind).Nodup :=
    ((hperm.map NormalizedTable.ind).nodup_iff).mp hnodup
  rw [goldFinishN_mem_ne ts hne hind r, goldFinishN_mem_ne ts2 hne2 hind2 r]
  constructor
  · rintro ⟨k, s, hf, rfl⟩
    obtain ⟨s2, hf2, hzip⟩ := forall₂_perm_transport hperm hf
    exact ⟨k, s2, hf2, outRow_eq_of_transport ts ts2 s s2 k hperm hnodup hnodup2 hf hzip⟩
  · rintro ⟨k, s2, hf2, rfl⟩
    obtain ⟨s1, hf1, hzip⟩ := forall₂_perm_transport hperm.symm hf2
    exact ⟨k, s1, hf1,
      outRow_eq_of_transport ts2 ts s2 s1 k hperm.symm hnodup2 hnodup hf2 hzip⟩

/-- C5 witness: in the five-table scenario merge, the surviving key `001`
belongs to the GDP table's key set. -/
theorem c5_witness : "001" ∈ gdpN.keys :=
  c5_key_subset mergeInputsN
    (by with_unfolding_all decide)
    (by with_unfolding_all decide)
    scenarioRow (by with_unfolding_all decide)
    "001" (by with_unfolding_all rfl)
    gdpN (by with_unfolding_all decide)

/-- C8 witness: swapping the population and GDP tables at the head of the
scenario list leaves membership of the surviving row unchanged. -/
theorem c8_witness :
    scenarioRow ∈ (goldFinishN mergeInputsN).rows ↔
      scenarioRow ∈ (goldFinishN [gdpN, popN, taxN, hdiN, nameN]).rows :=
  c8_order_invariance mergeInputsN [gdpN, popN, taxN, hdiN, nameN]
    (List.Perm.swap gdpN popN [taxN, hdiN, nameN])
    (by with_unfolding_all decide)
    (by with_unfolding_all decide)
    (by with_unfolding_all decide)
    scenarioRow
